import Mathlib

/-!
Verification development for the SoC composition layer of the `litex`
board target `arty_a7_35` and the Altera `USBBlaster` programmer backend.

The resource maps (`csr_map`, `interrupt_map`, `mem_map`) of the SoC class
hierarchy are Python dictionaries built by a dict literal followed by
`d.update(Base.map)`.  We embed them as ordered association lists
(`RMap`), with `dictInsert` the semantics of a single `d[k] = v`
assignment (replace in place if the key is present, append otherwise) and
`dictUpdate` the semantics of Python `dict.update` (iterate the argument
in insertion order, writing each entry into the receiver).
-/

namespace Litex

/-- An ordered mapping from symbolic resource name to integer slot,
embedding a Python `dict` with `str` keys and `int` values. -/
abbrev RMap := List (String × Nat)

/-- The key list of a map, in insertion order (Python `d.keys()`). -/
def rkeys (d : RMap) : List String := d.map Prod.fst

/-- Python `d[k]`: the value of the first (for a well-formed dict, only)
entry with key `k`, if present. -/
def dictLookup (d : RMap) (k : String) : Option Nat :=
  (d.find? (fun p => decide (p.1 = k))).map Prod.snd

/-- Python `d[k] = v`: replace the value in place (keeping the entry
position) when `k` is already a key, append a new entry otherwise. -/
def dictInsert (d : RMap) (k : String) (v : Nat) : RMap :=
  if k ∈ rkeys d then d.map (fun p => if p.1 = k then (p.1, v) else p)
  else d ++ [(k, v)]

/-- Python `d.update(other)`: write each entry of `other`, in insertion
order, into `d`.  On a shared key, `other`'s value overwrites `d`'s. -/
def dictUpdate (d : RMap) : RMap → RMap
  | [] => d
  | p :: rest => dictUpdate (dictInsert d p.1 p.2) rest

/-- The merge idiom of the source: a derived class lists its own entries
in a fresh dict literal and then runs `derived.update(base)`. -/
def mergeLayer (derived base : RMap) : RMap := dictUpdate derived base

theorem dictLookup_nil (k : String) : dictLookup [] k = none := rfl

theorem dictLookup_cons_self (d : RMap) (k : String) (v : Nat) :
    dictLookup ((k, v) :: d) k = some v := by
  simp [dictLookup, List.find?]

theorem dictLookup_cons_ne (d : RMap) (a k : String) (v : Nat) (h : a ≠ k) :
    dictLookup ((k, v) :: d) a = dictLookup d a := by
  simp [dictLookup, List.find?, Ne.symm h]

theorem dictLookup_eq_none_iff (d : RMap) (k : String) :
    dictLookup d k = none ↔ k ∉ rkeys d := by
  induction d with
  | nil => simp [dictLookup, rkeys]
  | cons p rest ih =>
    rcases p with ⟨a, v⟩
    by_cases hak : a = k
    · subst hak
      simp [dictLookup_cons_self, rkeys]
    · rw [dictLookup_cons_ne rest k a v (fun h => hak (Eq.symm h))]
      simp [rkeys, hak, Ne.symm hak] at ih ⊢
      exact ih

theorem dictLookup_isSome_of_mem (d : RMap) (k : String) (h : k ∈ rkeys d) :
    ∃ v, dictLookup d k = some v := by
  rcases hcase : dictLookup d k with _ | v
  · exact absurd ((dictLookup_eq_none_iff d k).mp hcase) (fun hn => hn h)
  · exact ⟨v, rfl⟩

theorem rkeys_append (d e : RMap) : rkeys (d ++ e) = rkeys d ++ rkeys e := by
  simp [rkeys]

theorem dictLookup_append_of_mem (d e : RMap) (k : String) (h : k ∈ rkeys d) :
    dictLookup (d ++ e) k = dictLookup d k := by
  induction d with
  | nil => simp [rkeys] at h
  | cons p rest ih =>
    rcases p with ⟨a, v⟩
    by_cases hak : k = a
    · subst hak
      simp [dictLookup_cons_self]
    · rw [List.cons_append, dictLookup_cons_ne _ k a v hak,
        dictLookup_cons_ne rest k a v hak]
      exact ih (by simpa [rkeys, hak] using h)

theorem dictLookup_append_of_not_mem (d e : RMap) (k : String)
    (h : k ∉ rkeys d) :
    dictLookup (d ++ e) k = dictLookup e k := by
  induction d with
  | nil => simp
  | cons p rest ih =>
    rcases p with ⟨a, v⟩
    have hak : k ≠ a := fun hk => h (by simp [rkeys, hk])
    rw [List.cons_append, dictLookup_cons_ne _ k a v hak]
    exact ih (fun hm => h (by simp [rkeys] at hm ⊢; exact Or.inr hm))

theorem rkeys_dictInsert_of_mem (d : RMap) (k : String) (v : Nat)
    (h : k ∈ rkeys d) : rkeys (dictInsert d k v) = rkeys d := by
  rw [dictInsert, if_pos h]
  unfold rkeys
  rw [List.map_map]
  refine List.map_congr_left ?_
  intro p _
  by_cases hp : p.1 = k <;> simp [hp]

theorem rkeys_dictInsert_of_not_mem (d : RMap) (k : String) (v : Nat)
    (h : k ∉ rkeys d) : rkeys (dictInsert d k v) = rkeys d ++ [k] := by
  rw [dictInsert, if_neg h, rkeys_append]
  rfl

theorem mem_rkeys_dictInsert (d : RMap) (a k : String) (v : Nat) :
    a ∈ rkeys (dictInsert d k v) ↔ a ∈ rkeys d ∨ a = k := by
  by_cases h : k ∈ rkeys d
  · rw [rkeys_dictInsert_of_mem d k v h]
    constructor
    · exact Or.inl
    · rintro (ha | rfl)
      · exact ha
      · exact h
  · rw [rkeys_dictInsert_of_not_mem d k v h]
    simp

theorem nodup_rkeys_dictInsert (d : RMap) (k : String) (v : Nat)
    (h : (rkeys d).Nodup) : (rkeys (dictInsert d k v)).Nodup := by
  by_cases hm : k ∈ rkeys d
  · rw [rkeys_dictInsert_of_mem d k v hm]
    exact h
  · rw [rkeys_dictInsert_of_not_mem d k v hm]
    simp [List.nodup_append, h, hm]

theorem lookup_map_replace_self (d : RMap) (k : String) (v : Nat)
    (h : k ∈ rkeys d) :
    dictLookup (d.map (fun p => if p.1 = k then (p.1, v) else p)) k
      = some v := by
  induction d with
  | nil => simp [rkeys] at h
  | cons p rest ih =>
    rcases p with ⟨b, w⟩
    by_cases hbk : b = k
    · subst hbk
      simp only [List.map_cons, if_pos rfl]
      exact dictLookup_cons_self _ b v
    · simp only [List.map_cons, if_neg hbk]
      rw [dictLookup_cons_ne _ k b w (Ne.symm hbk)]
      exact ih (by simpa [rkeys, Ne.symm hbk] using h)

theorem lookup_map_replace_ne (d : RMap) (a k : String) (v : Nat)
    (h : a ≠ k) :
    dictLookup (d.map (fun p => if p.1 = k then (p.1, v) else p)) a
      = dictLookup d a := by
  induction d with
  | nil => rfl
  | cons p rest ih =>
    rcases p with ⟨b, w⟩
    simp only [List.map_cons]
    by_cases hbk : b = k
    · rw [if_pos hbk]
      have hba : a ≠ b := fun hab => h (hab.trans hbk)
      rw [dictLookup_cons_ne _ a b v hba, dictLookup_cons_ne rest a b w hba]
      exact ih
    · rw [if_neg hbk]
      by_cases hba : a = b
      · subst hba
        rw [dictLookup_cons_self, dictLookup_cons_self]
      · rw [dictLookup_cons_ne _ a b w hba, dictLookup_cons_ne rest a b w hba]
        exact ih

theorem dictLookup_dictInsert_self (d : RMap) (k : String) (v : Nat) :
    dictLookup (dictInsert d k v) k = some v := by
  rw [dictInsert]
  by_cases h : k ∈ rkeys d
  · rw [if_pos h]
    exact lookup_map_replace_self d k v h
  · rw [if_neg h, dictLookup_append_of_not_mem d _ k h]
    exact dictLookup_cons_self [] k v

theorem dictLookup_dictInsert_ne (d : RMap) (a k : String) (v : Nat)
    (h : a ≠ k) : dictLookup (dictInsert d k v) a = dictLookup d a := by
  rw [dictInsert]
  by_cases hm : k ∈ rkeys d
  · rw [if_pos hm]
    exact lookup_map_replace_ne d a k v h
  · rw [if_neg hm]
    by_cases ha : a ∈ rkeys d
    · exact dictLookup_append_of_mem d _ a ha
    · rw [dictLookup_append_of_not_mem d _ a ha,
        dictLookup_cons_ne [] a k v h, dictLookup_nil,
        (dictLookup_eq_none_iff d a).mpr ha]

theorem dictLookup_dictUpdate_not_mem (o d : RMap) (k : String)
    (h : k ∉ rkeys o) : dictLookup (dictUpdate d o) k = dictLookup d k := by
  induction o generalizing d with
  | nil => rfl
  | cons p rest ih =>
    rcases p with ⟨b, w⟩
    have hkb : k ≠ b := fun hk => h (by simp [rkeys, hk])
    simp only [dictUpdate]
    rw [ih _ (fun hm => h (by simp [rkeys] at hm ⊢; exact Or.inr hm))]
    exact dictLookup_dictInsert_ne d k b w hkb

theorem dictLookup_dictUpdate_mem (o d : RMap) (k : String)
    (hnd : (rkeys o).Nodup) (h : k ∈ rkeys o) :
    dictLookup (dictUpdate d o) k = dictLookup o k := by
  induction o generalizing d with
  | nil => simp [rkeys] at h
  | cons p rest ih =>
    rcases p with ⟨b, w⟩
    have hcons := List.nodup_cons.mp
      (show (b :: rkeys rest).Nodup by
        simpa only [rkeys, List.map_cons] using hnd)
    simp only [dictUpdate]
    by_cases hkb : k = b
    · subst hkb
      rw [dictLookup_dictUpdate_not_mem rest _ k hcons.1,
        dictLookup_dictInsert_self, dictLookup_cons_self]
    · rw [dictLookup_cons_ne rest k b w hkb]
      have hkrest : k ∈ rkeys rest := by
        simp only [rkeys, List.map_cons, List.mem_cons] at h
        rcases h with h | h
        · exact absurd h hkb
        · exact h
      exact ih _ hcons.2 hkrest

theorem mem_rkeys_dictUpdate_left (o d : RMap) (k : String)
    (h : k ∈ rkeys d) : k ∈ rkeys (dictUpdate d o) := by
  induction o generalizing d with
  | nil => exact h
  | cons p rest ih =>
    simp only [dictUpdate]
    exact ih _ ((mem_rkeys_dictInsert d k p.1 p.2).mpr (Or.inl h))

theorem mem_rkeys_dictUpdate (o d : RMap) (k : String)
    (h : k ∈ rkeys (dictUpdate d o)) : k ∈ rkeys d ∨ k ∈ rkeys o := by
  induction o generalizing d with
  | nil => exact Or.inl h
  | cons p rest ih =>
    simp only [dictUpdate] at h
    rcases ih _ h with h1 | h2
    · rcases (mem_rkeys_dictInsert d k p.1 p.2).mp h1 with h3 | h4
      · exact Or.inl h3
      · exact Or.inr (by simp [rkeys, h4])
    · refine Or.inr ?_
      simp only [rkeys, List.map_cons, List.mem_cons]
      exact Or.inr h2

theorem nodup_rkeys_dictUpdate (o d : RMap) (h : (rkeys d).Nodup) :
    (rkeys (dictUpdate d o)).Nodup := by
  induction o generalizing d with
  | nil => exact h
  | cons p rest ih =>
    simp only [dictUpdate]
    exact ih _ (nodup_rkeys_dictInsert d p.1 p.2 h)

theorem dictUpdate_disjoint (o d : RMap) (hnd : (rkeys o).Nodup)
    (hdisj : ∀ k, k ∈ rkeys o → k ∉ rkeys d) :
    dictUpdate d o = d ++ o := by
  induction o generalizing d with
  | nil => simp [dictUpdate]
  | cons p rest ih =>
    rcases p with ⟨b, w⟩
    have hcons := List.nodup_cons.mp
      (show (b :: rkeys rest).Nodup by
        simpa only [rkeys, List.map_cons] using hnd)
    have hbnot : b ∉ rkeys d := hdisj b (by simp [rkeys])
    simp only [dictUpdate, dictInsert, if_neg hbnot]
    rw [ih (d ++ [(b, w)]) hcons.2 ?_]
    · simp
    · intro k hk
      rw [rkeys_append]
      simp only [List.mem_append]
      rintro (h1 | h2)
      · refine hdisj k ?_ h1
        simp only [rkeys, List.map_cons, List.mem_cons]
        exact Or.inr hk
      · simp only [rkeys, List.map_cons, List.map_nil, List.mem_singleton] at h2
        exact hcons.1 (h2 ▸ hk)

theorem dictLookup_of_mem_nodup (d : RMap) (k : String) (v : Nat)
    (hnd : (rkeys d).Nodup) (h : (k, v) ∈ d) : dictLookup d k = some v := by
  induction d with
  | nil => simp at h
  | cons p rest ih =>
    rcases p with ⟨b, w⟩
    have hcons := List.nodup_cons.mp
      (show (b :: rkeys rest).Nodup by
        simpa only [rkeys, List.map_cons] using hnd)
    rcases List.mem_cons.mp h with heq | hmem
    · injection heq with h1 h2
      subst h1
      subst h2
      exact dictLookup_cons_self rest k v
    · have hk : k ∈ rkeys rest := List.mem_map.mpr ⟨(k, v), hmem, rfl⟩
      have hkb : k ≠ b := fun hc => hcons.1 (hc ▸ hk)
      rw [dictLookup_cons_ne rest k b w hkb]
      exact ih hcons.2 hmem

/-- The dict literal of `BaseSoC.csr_map` (src/litex/boards/targets/
arty_a7_35.py), in source order. -/
def baseSoC_csr_layer : RMap :=
  [("ddrphy", 16), ("uart_phy0", 17), ("uart0", 18),
   ("uart_phy1", 19), ("uart1", 20), ("switches", 21)]

/-- `BaseSoC.csr_map` after `csr_map.update(SoCSDRAM.csr_map)`.  The
inherited `SoCSDRAM.csr_map` lives outside the sources under study, so it
is a parameter. -/
def baseSoC_csr_map (socSDRAM_csr_map : RMap) : RMap :=
  dictUpdate baseSoC_csr_layer socSDRAM_csr_map

/-- The dict literal of `BaseSoC.interrupt_map`, in source order. -/
def baseSoC_interrupt_layer : RMap := [("uart0", 3), ("uart1", 4)]

/-- `BaseSoC.interrupt_map` after `interrupt_map.update
(SoCSDRAM.interrupt_map)`, with the inherited map as a parameter. -/
def baseSoC_interrupt_map (socSDRAM_interrupt_map : RMap) : RMap :=
  dictUpdate baseSoC_interrupt_layer socSDRAM_interrupt_map

/-- The dict literal of `EthernetSoC.csr_map`, in source order. -/
def ethernetSoC_csr_layer : RMap := [("ethphy", 22), ("ethmac", 23)]

/-- `EthernetSoC.csr_map` after `csr_map.update(BaseSoC.csr_map)`. -/
def ethernetSoC_csr_map (socSDRAM_csr_map : RMap) : RMap :=
  dictUpdate ethernetSoC_csr_layer (baseSoC_csr_map socSDRAM_csr_map)

/-- The dict literal of `EthernetSoC.interrupt_map`. -/
def ethernetSoC_interrupt_layer : RMap := [("ethmac", 5)]

/-- `EthernetSoC.interrupt_map` after `interrupt_map.update
(BaseSoC.interrupt_map)`. -/
def ethernetSoC_interrupt_map (socSDRAM_interrupt_map : RMap) : RMap :=
  dictUpdate ethernetSoC_interrupt_layer
    (baseSoC_interrupt_map socSDRAM_interrupt_map)

/-- The dict literal of `EthernetSoC.mem_map`: ethmac at `0x30000000`
(src comment: shadow at `0xb0000000`). -/
def ethernetSoC_mem_layer : RMap := [("ethmac", 0x30000000)]

/-- `EthernetSoC.mem_map` after `mem_map.update(BaseSoC.mem_map)`;
`BaseSoC` declares no `mem_map` of its own, so the inherited map is the
`SoCSDRAM` one, again a parameter. -/
def ethernetSoC_mem_map (baseSoC_mem_map : RMap) : RMap :=
  dictUpdate ethernetSoC_mem_layer baseSoC_mem_map

/-- C1 (counterexample): a derived layer that redefines `uart0` (here to
slot 99, alongside the Ethernet entries) does not win the merge against
`BaseSoC`'s csr layer: `uart0` resolves to the base slot 18 and not to
the derived slot 99, because `derived.update(base)` writes the base
entries over the derived literal. -/
theorem C1_cex :
    dictLookup (mergeLayer (("uart0", 99) :: ethernetSoC_csr_layer)
        baseSoC_csr_layer) "uart0" = some 18 ∧
      some 18 ≠ some (99 : Nat) := by
  constructor
  · decide
  · decide

/-- C1 (amended): when a derived layer redefines a name also present in
the base layer, the merged map resolves that name to the BASE layer's
slot — the `update` call writes the base entries last, so the base layer
is the last writer and wins — and no `DuplicateNameError` is raised
(the merge is a total function with no failure path). -/
theorem C1_amended (derived base : RMap) (hnd : (rkeys base).Nodup)
    (k : String) (hk : k ∈ rkeys base) :
    dictLookup (mergeLayer derived base) k = dictLookup base k :=
  dictLookup_dictUpdate_mem base derived k hnd hk

theorem C1_amended_witness :
    dictLookup (mergeLayer (("uart0", 99) :: ethernetSoC_csr_layer)
        baseSoC_csr_layer) "uart0"
      = dictLookup baseSoC_csr_layer "uart0" :=
  C1_amended (("uart0", 99) :: ethernetSoC_csr_layer) baseSoC_csr_layer
    (by decide) "uart0" (by decide)

/-- C2: merging a base layer into a derived layer whose name sets are
disjoint (each layer itself duplicate-free, as a Python dict is) yields a
map whose size is the sum of the two layers' sizes, and every name in the
merged map resolves to the slot of the layer that declared it. -/
theorem C2_disjoint_merge (derived base : RMap)
    (hd : (rkeys derived).Nodup) (hb : (rkeys base).Nodup)
    (hdisj : ∀ k, k ∈ rkeys base → k ∉ rkeys derived) :
    (mergeLayer derived base).length = derived.length + base.length ∧
    (∀ k v, (k, v) ∈ derived →
      dictLookup (mergeLayer derived base) k = some v) ∧
    (∀ k v, (k, v) ∈ base →
      dictLookup (mergeLayer derived base) k = some v) := by
  have happ : mergeLayer derived base = derived ++ base :=
    dictUpdate_disjoint base derived hb hdisj
  refine ⟨?_, ?_, ?_⟩
  · rw [happ, List.length_append]
  · intro k v hkv
    rw [happ, dictLookup_append_of_mem derived base k
      (List.mem_map.mpr ⟨(k, v), hkv, rfl⟩)]
    exact dictLookup_of_mem_nodup derived k v hd hkv
  · intro k v hkv
    have hkb : k ∈ rkeys base := List.mem_map.mpr ⟨(k, v), hkv, rfl⟩
    rw [happ, dictLookup_append_of_not_mem derived base k (hdisj k hkb)]
    exact dictLookup_of_mem_nodup base k v hb hkv

theorem C2_witness :
    (mergeLayer ethernetSoC_csr_layer baseSoC_csr_layer).length
        = ethernetSoC_csr_layer.length + baseSoC_csr_layer.length ∧
    dictLookup (mergeLayer ethernetSoC_csr_layer baseSoC_csr_layer)
        "ethmac" = some 23 ∧
    dictLookup (mergeLayer ethernetSoC_csr_layer baseSoC_csr_layer)
        "uart0" = some 18 := by
  have h := C2_disjoint_merge ethernetSoC_csr_layer baseSoC_csr_layer
    (by decide) (by decide) (by decide)
  exact ⟨h.1, h.2.1 "ethmac" 23 (by decide), h.2.2 "uart0" 18 (by decide)⟩

/-- C3: with the inherited `SoCSDRAM.csr_map` an arbitrary dict `M` that
does not itself declare the board-level names, the base CSR map declares
`ddrphy` at 16, `uart_phy0` at 17 and `uart0` at 18, and the
Ethernet-extended CSR map built over it resolves `ethmac` to the derived
slot 23 while `uart0` still resolves to 18. -/
theorem C3_end_to_end (M : RMap)
    (h1 : "ddrphy" ∉ rkeys M) (h2 : "uart_phy0" ∉ rkeys M)
    (h3 : "uart0" ∉ rkeys M) (h4 : "ethmac" ∉ rkeys M) :
    dictLookup (baseSoC_csr_map M) "ddrphy" = some 16 ∧
    dictLookup (baseSoC_csr_map M) "uart_phy0" = some 17 ∧
    dictLookup (baseSoC_csr_map M) "uart0" = some 18 ∧
    dictLookup (ethernetSoC_csr_map M) "ethmac" = some 23 ∧
    dictLookup (ethernetSoC_csr_map M) "uart0" = some 18 := by
  have hbase : ∀ n : String, n ∉ rkeys M →
      dictLookup (baseSoC_csr_map M) n = dictLookup baseSoC_csr_layer n :=
    fun n hn => dictLookup_dictUpdate_not_mem M baseSoC_csr_layer n hn
  have hnodup_base : (rkeys (baseSoC_csr_map M)).Nodup :=
    nodup_rkeys_dictUpdate M baseSoC_csr_layer (by decide)
  have huart : dictLookup (baseSoC_csr_map M) "uart0" = some 18 := by
    rw [hbase _ h3]
    decide
  refine ⟨?_, ?_, huart, ?_, ?_⟩
  · rw [hbase _ h1]
    decide
  · rw [hbase _ h2]
    decide
  · have hnm : "ethmac" ∉ rkeys (baseSoC_csr_map M) := by
      intro hmem
      rcases mem_rkeys_dictUpdate M baseSoC_csr_layer "ethmac" hmem with hA | hB
      · exact absurd hA (by decide)
      · exact h4 hB
    rw [ethernetSoC_csr_map,
      dictLookup_dictUpdate_not_mem (baseSoC_csr_map M)
        ethernetSoC_csr_layer "ethmac" hnm]
    decide
  · have hm : "uart0" ∈ rkeys (baseSoC_csr_map M) :=
      mem_rkeys_dictUpdate_left M baseSoC_csr_layer "uart0" (by decide)
    rw [ethernetSoC_csr_map,
      dictLookup_dictUpdate_mem (baseSoC_csr_map M)
        ethernetSoC_csr_layer "uart0" hnodup_base hm]
    exact huart

theorem C3_witness :
    dictLookup (baseSoC_csr_map []) "ddrphy" = some 16 ∧
    dictLookup (baseSoC_csr_map []) "uart_phy0" = some 17 ∧
    dictLookup (baseSoC_csr_map []) "uart0" = some 18 ∧
    dictLookup (ethernetSoC_csr_map []) "ethmac" = some 23 ∧
    dictLookup (ethernetSoC_csr_map []) "uart0" = some 18 :=
  C3_end_to_end [] (by decide) (by decide) (by decide) (by decide)

/-- The error kinds of the spec's `ResourceMap.declare` contract. -/
inductive DeclareError where
  | slotCollision
  | duplicateName
deriving DecidableEq

/-- Modelled from the spec: `ResourceMap.declare` with an explicit slot.
The source builds its layers as plain dict literals, with no checked
declare operation; the spec's contract is: re-declaring a name with its
existing slot is a no-op, re-declaring it with a different slot is a
same-layer conflict (`DuplicateNameError`), a fresh name whose explicit
slot another distinct name already claims is a `SlotCollisionError`, and
otherwise the entry is appended. -/
def declare (layer : RMap) (name : String) (slot : Nat) :
    Except DeclareError RMap :=
  match dictLookup layer name with
  | some s => if s = slot then .ok layer else .error .duplicateName
  | none =>
    if slot ∈ layer.map Prod.snd then .error .slotCollision
    else .ok (layer ++ [(name, slot)])

/-- C4: after declaring `n1` at slot `s` in a layer where `n1` is fresh
and `s` unclaimed, declaring a distinct name `n2` (itself fresh) at the
same slot `s` raises `SlotCollisionError`, while re-declaring `n1` at
`s` is idempotent and raises nothing. -/
theorem C4_declare_contract (layer : RMap) (n1 n2 : String) (s : Nat)
    (hn1 : dictLookup layer n1 = none)
    (hn2 : dictLookup (layer ++ [(n1, s)]) n2 = none)
    (hs : s ∉ layer.map Prod.snd) :
    declare layer n1 s = .ok (layer ++ [(n1, s)]) ∧
    declare (layer ++ [(n1, s)]) n2 s = .error .slotCollision ∧
    declare (layer ++ [(n1, s)]) n1 s = .ok (layer ++ [(n1, s)]) := by
  refine ⟨?_, ?_, ?_⟩
  · simp only [declare, hn1]
    rw [if_neg hs]
  · simp only [declare, hn2]
    rw [if_pos ?_]
    simp
  · have hl : dictLookup (layer ++ [(n1, s)]) n1 = some s := by
      rw [dictLookup_append_of_not_mem layer _ n1
        ((dictLookup_eq_none_iff layer n1).mp hn1)]
      exact dictLookup_cons_self [] n1 s
    simp [declare, hl]

theorem C4_witness :
    declare [] "ddrphy" 16 = .ok [("ddrphy", 16)] ∧
    declare [("ddrphy", 16)] "uart0" 16 = .error .slotCollision ∧
    declare [("ddrphy", 16)] "ddrphy" 16 = .ok [("ddrphy", 16)] :=
  C4_declare_contract [] "ddrphy" "uart0" 16 (by decide) (by decide)
    (by decide)

/-- What the external `quartus_pgm` process does when invoked: either it
cannot be started at all, or it runs and terminates with an exit code. -/
inductive ProcBehavior where
  | startFailure
  | exits (code : Nat)
deriving DecidableEq

/-- The observable outcome of a `USBBlaster.load_bitstream` call.  The
method body is a bare `subprocess.call(...)`: the call's return value is
discarded, the method returns `None`, and the `OSError` raised by a
non-startable binary propagates uncaught. -/
inductive LoadOutcome where
  | returnedNone
  | uncaughtOSError
  | programmerInvocationError
  | programmerExitError (code : Nat)
deriving DecidableEq

/-- The `USBBlaster` programmer backend descriptor
(src/litex/build/altera/programmer.py), with the `__init__` defaults. -/
structure USBBlaster where
  cable_name : String := "USB-Blaster"
  device_id : Nat := 1
deriving DecidableEq

/-- The exact argv that `load_bitstream` passes to `subprocess.call`. -/
def load_bitstream_args (p : USBBlaster)
    (bitstream_file cable_suffix : String) : List String :=
  ["quartus_pgm", "-m", "jtag", "-c",
   p.cable_name ++ cable_suffix, "-o",
   "p;" ++ bitstream_file ++ "@" ++ toString p.device_id]

/-- `USBBlaster.load_bitstream`: build the argv and run the external
process, whose behavior is a parameter.  Yields the argv passed to the
process together with the observable outcome of the method. -/
def load_bitstream (p : USBBlaster) (bitstream_file cable_suffix : String)
    (proc : ProcBehavior) : List String × LoadOutcome :=
  (load_bitstream_args p bitstream_file cable_suffix,
   match proc with
   | .startFailure => .uncaughtOSError
   | .exits _ => .returnedNone)

/-- The spec's words for the programmer invocation: flag arguments
`-m jtag -c <cable><suffix> -o p;<bitstream_path>@<device_id>`. -/
def spec_programmer_flags (cable suffix path : String) (device : Nat) :
    List String :=
  ["-m", "jtag", "-c", cable ++ suffix, "-o",
   "p;" ++ path ++ "@" ++ toString device]

/-- C5: for every bitstream path and cable suffix (and whatever the
external process then does), `load_bitstream` invokes the vendor binary
`quartus_pgm` with exactly the flag list the spec describes. -/
theorem C5_invocation_args (p : USBBlaster) (file suffix : String)
    (proc : ProcBehavior) :
    (load_bitstream p file suffix proc).1
      = "quartus_pgm" ::
          spec_programmer_flags p.cable_name suffix file p.device_id := rfl

/-- C6 (counterexample): a stub process exiting with code 2 does not
yield `ProgrammerExitError` carrying 2 — `load_bitstream` discards the
return value of `subprocess.call` and returns `None`. -/
theorem C6_cex :
    (load_bitstream {} "bitstream.sof" "" (.exits 2)).2
        = LoadOutcome.returnedNone ∧
      LoadOutcome.returnedNone ≠ LoadOutcome.programmerExitError 2 := by
  exact ⟨rfl, by decide⟩

/-- C6 (amended): `load_bitstream` raises neither `ProgrammerExitError`
nor `ProgrammerInvocationError` and returns no exit status: for every
exit code of the external process it discards the code and returns
`None`, and when the process cannot be started the underlying OS
exception propagates uncaught. -/
theorem C6_amended (p : USBBlaster) (file suffix : String) :
    (∀ c, (load_bitstream p file suffix (.exits c)).2
        = LoadOutcome.returnedNone) ∧
    (load_bitstream p file suffix .startFailure).2
        = LoadOutcome.uncaughtOSError ∧
    (∀ proc c, (load_bitstream p file suffix proc).2
        ≠ LoadOutcome.programmerExitError c) ∧
    (∀ proc, (load_bitstream p file suffix proc).2
        ≠ LoadOutcome.programmerInvocationError) := by
  refine ⟨fun c => rfl, rfl, ?_, ?_⟩
  · intro proc c
    cases proc <;> simp [load_bitstream]
  · intro proc
    cases proc <;> simp [load_bitstream]

/-- Modelled from the spec: the SoC shadow-base constant.  The code that
defines it (`soc_core`) is not among the sources under study; the src
comment pins the shadow of `0x30000000` at `0xb0000000`, so
`shadow_base = 0x80000000`. -/
def shadow_base : Nat := 0x80000000

/-- A registered memory region: name, primary base address, size. -/
structure MemRegion where
  name : String
  base : Nat
  size : Nat
deriving DecidableEq

/-- Modelled from the spec: an address hits a region if it falls in the
primary range or in the shadow alias range obtained by OR-ing
`shadow_base` into the base address. -/
def regionMatches (r : MemRegion) (addr : Nat) : Bool :=
  decide ((r.base ≤ addr ∧ addr < r.base + r.size) ∨
    ((r.base ||| shadow_base) ≤ addr ∧
      addr < (r.base ||| shadow_base) + r.size))

/-- Modelled from the spec: resolving an address against the registered
regions to the logical region object it belongs to. -/
def regionResolve (regions : List MemRegion) (addr : Nat) :
    Option MemRegion :=
  regions.find? (fun r => regionMatches r addr)

/-- The regions registered by `EthernetSoC.__init__`: one call
`add_memory_region("ethmac", mem_map["ethmac"] | shadow_base, 0x2000)`,
the base taken from `EthernetSoC.mem_map`. -/
def ethernetSoC_regions : List MemRegion :=
  [⟨"ethmac", 0x30000000, 0x2000⟩]

/-- C7: the ethmac region is registered at base `0x30000000` with size
`0x2000` (the base being exactly the `EthernetSoC.mem_map` entry); its
shadow alias is `0x30000000 ||| shadow_base = 0xb0000000`; and the
primary address and the shadow address resolve to the same logical
region object. -/
theorem C7_shadow_alias :
    dictLookup ethernetSoC_mem_layer "ethmac" = some 0x30000000 ∧
    (0x30000000 ||| shadow_base) = 0xb0000000 ∧
    regionResolve ethernetSoC_regions 0x30000000
        = some ⟨"ethmac", 0x30000000, 0x2000⟩ ∧
    regionResolve ethernetSoC_regions (0x30000000 ||| shadow_base)
        = some ⟨"ethmac", 0x30000000, 0x2000⟩ := by
  refine ⟨by decide, by decide, by decide, by decide⟩

/-- One PLL output clock (`pll.create_clkout`): target domain name,
requested frequency in Hz and phase in degrees. -/
structure ClkOut where
  domain : String
  freq : Nat
  phase : Nat
deriving DecidableEq

/-- The `S7PLL` built by `_CRG.__init__`: one registered reference input
(`register_clkin`) and the `create_clkout` calls in source order. -/
structure PLLModel where
  clkin_name : String
  clkin_freq : Nat
  clkouts : List ClkOut
deriving DecidableEq

/-- `BaseSoC.__init__` fixes `sys_clk_freq = int(100e6)`. -/
def baseSoC_sys_clk_freq : Nat := 100000000

/-- The PLL of `_CRG.__init__`: reference `clk100` at 100 MHz, outputs
`sys`, `sys4x`, `sys4x_dqs` (phase 90) and `clk200`. -/
def crg_pll (sys_clk_freq : Nat) : PLLModel :=
  { clkin_name := "clk100"
    clkin_freq := 100000000
    clkouts :=
      [⟨"sys", sys_clk_freq, 0⟩, ⟨"sys4x", 4 * sys_clk_freq, 0⟩,
       ⟨"sys4x_dqs", 4 * sys_clk_freq, 90⟩, ⟨"clk200", 200000000, 0⟩] }

/-- The clock domains `_CRG.__init__` creates, with their `reset_less`
flag, in source order. -/
def crg_domains : List (String × Bool) :=
  [("sys", false), ("sys4x", true), ("sys4x_dqs", true), ("clk200", false)]

/-- The derivation edges of the clock-domain graph: one edge from the
PLL's reference domain to each PLL output domain. -/
def crg_edges (pll : PLLModel) : List (String × String) :=
  pll.clkouts.map (fun o => (pll.clkin_name, o.domain))

/-- How many upstream sources drive a domain in the graph. -/
def upstream_count (pll : PLLModel) (d : String) : Nat :=
  (crg_edges pll).countP (fun e => decide (e.2 = d))

/-- Derivation rank: the root oscillator domain is 0, all others 1. -/
def crg_rank (n : String) : Nat := if n = "clk100" then 0 else 1

/-- C8: every created clock domain has exactly one upstream source edge,
the root oscillator `clk100` has none, every edge strictly increases the
derivation rank (so the derivation relation has no cycle), and the four
derived domains are all driven by the single PLL whose one reference
input is `clk100` at 100 MHz. -/
theorem C8_clock_graph :
    (∀ d ∈ crg_domains.map Prod.fst,
      upstream_count (crg_pll baseSoC_sys_clk_freq) d = 1) ∧
    upstream_count (crg_pll baseSoC_sys_clk_freq) "clk100" = 0 ∧
    (crg_pll baseSoC_sys_clk_freq).clkin_name = "clk100" ∧
    (crg_pll baseSoC_sys_clk_freq).clkin_freq = 100000000 ∧
    ((crg_pll baseSoC_sys_clk_freq).clkouts.map ClkOut.domain
        = crg_domains.map Prod.fst) ∧
    (∀ e ∈ crg_edges (crg_pll baseSoC_sys_clk_freq),
      crg_rank e.1 < crg_rank e.2) := by
  decide

/-- The peripheral kinds of the claimed registration order. -/
inductive PeriphKind where
  | memoryController
  | comm
  | gpio
  | ethernet
deriving DecidableEq

/-- The position of each kind in the claimed deterministic order. -/
def periphRank : PeriphKind → Nat
  | .memoryController => 0
  | .comm => 1
  | .gpio => 2
  | .ethernet => 3

/-- The peripheral registrations of `BaseSoC.__init__` in source order
(submodule assignments and `register_sdram`), classified by kind. -/
def baseSoC_peripheral_order : List (String × PeriphKind) :=
  [("ddrphy", .memoryController), ("sdram", .memoryController),
   ("uart_phy0", .comm), ("uart0", .comm),
   ("uart_phy1", .comm), ("uart1", .comm),
   ("leds", .gpio), ("switches", .gpio), ("buttons", .gpio)]

/-- `EthernetSoC.__init__` first runs `BaseSoC.__init__` and only then
registers the Ethernet peripherals. -/
def ethernetSoC_peripheral_order : List (String × PeriphKind) :=
  baseSoC_peripheral_order ++ [("ethphy", .ethernet), ("ethmac", .ethernet)]

/-- C9: the registration sequence is ordered by kind rank — the memory
controller peripherals come first, then the UARTs, then the GPIO
peripherals, and only then the Ethernet extension, which is appended
after the entire base sequence. -/
theorem C9_registration_kind_order :
    List.Pairwise (fun a b => periphRank a.2 ≤ periphRank b.2)
        ethernetSoC_peripheral_order ∧
    baseSoC_peripheral_order.map Prod.snd
        = [.memoryController, .memoryController, .comm, .comm, .comm,
           .comm, .gpio, .gpio, .gpio] ∧
    ethernetSoC_peripheral_order.map Prod.snd
        = baseSoC_peripheral_order.map Prod.snd
            ++ [.ethernet, .ethernet] := by
  refine ⟨by decide, rfl, rfl⟩

/-- A heap of Python dict objects, indexed by object identity. -/
structure PyHeap where
  dicts : List RMap
deriving DecidableEq

/-- Dereference a dict object id (out-of-range ids read as empty). -/
def heapGet (h : PyHeap) (i : Nat) : RMap := h.dicts.getD i []

/-- Allocate a fresh dict object from a literal; yields the new heap and
the id of the new object. -/
def heapNew (h : PyHeap) (lit : RMap) : PyHeap × Nat :=
  (⟨h.dicts ++ [lit]⟩, h.dicts.length)

/-- `target.update(src)`: in-place mutation of the target dict object
only. -/
def heapUpdate (h : PyHeap) (target src : Nat) : PyHeap :=
  ⟨h.dicts.set target (dictUpdate (heapGet h target) (heapGet h src))⟩

/-- The class body of `EthernetSoC` as heap operations: for each of
`csr_map`, `interrupt_map` and `mem_map`, allocate a fresh dict from the
literal and `update` it with the base class's dict (object ids `bCsr`,
`bInt`, `bMem`).  Yields the final heap and the ids of the three new
dicts. -/
def ethernetSoC_classBody (h : PyHeap) (bCsr bInt bMem : Nat) :
    PyHeap × Nat × Nat × Nat :=
  let n1 := heapNew h ethernetSoC_csr_layer
  let h1 := heapUpdate n1.1 n1.2 bCsr
  let n2 := heapNew h1 ethernetSoC_interrupt_layer
  let h2 := heapUpdate n2.1 n2.2 bInt
  let n3 := heapNew h2 ethernetSoC_mem_layer
  let h3 := heapUpdate n3.1 n3.2 bMem
  (h3, n1.2, n2.2, n3.2)

/-- C10: running the `EthernetSoC` class body over a heap holding the
base class's three map objects (ids 0, 1, 2) leaves those objects
unchanged — each derived map is a fresh object merged from its literal
and the base entries — so every name in the base maps still resolves to
the same slot as before, and each new map is exactly the derived literal
updated with the base entries. -/
theorem C10_base_maps_unchanged (Mc Mi Mm : RMap) :
    heapGet (ethernetSoC_classBody ⟨[Mc, Mi, Mm]⟩ 0 1 2).1 0 = Mc ∧
    heapGet (ethernetSoC_classBody ⟨[Mc, Mi, Mm]⟩ 0 1 2).1 1 = Mi ∧
    heapGet (ethernetSoC_classBody ⟨[Mc, Mi, Mm]⟩ 0 1 2).1 2 = Mm ∧
    (∀ k, dictLookup (heapGet (ethernetSoC_classBody ⟨[Mc, Mi, Mm]⟩ 0 1 2).1 0) k
        = dictLookup Mc k) ∧
    (∀ k, dictLookup (heapGet (ethernetSoC_classBody ⟨[Mc, Mi, Mm]⟩ 0 1 2).1 1) k
        = dictLookup Mi k) ∧
    (∀ k, dictLookup (heapGet (ethernetSoC_classBody ⟨[Mc, Mi, Mm]⟩ 0 1 2).1 2) k
        = dictLookup Mm k) ∧
    heapGet (ethernetSoC_classBody ⟨[Mc, Mi, Mm]⟩ 0 1 2).1
        (ethernetSoC_classBody ⟨[Mc, Mi, Mm]⟩ 0 1 2).2.1
      = dictUpdate ethernetSoC_csr_layer Mc ∧
    heapGet (ethernetSoC_classBody ⟨[Mc, Mi, Mm]⟩ 0 1 2).1
        (ethernetSoC_classBody ⟨[Mc, Mi, Mm]⟩ 0 1 2).2.2.1
      = dictUpdate ethernetSoC_interrupt_layer Mi ∧
    heapGet (ethernetSoC_classBody ⟨[Mc, Mi, Mm]⟩ 0 1 2).1
        (ethernetSoC_classBody ⟨[Mc, Mi, Mm]⟩ 0 1 2).2.2.2
      = dictUpdate ethernetSoC_mem_layer Mm :=
  ⟨rfl, rfl, rfl, fun _ => rfl, fun _ => rfl, fun _ => rfl, rfl, rfl, rfl⟩

end Litex
